/-
Verification of the Figma service in-memory cache (`FigmaCache`) and its two
caching call sites (`fetchFile`, `fetchImages`).

The embedding mirrors the TypeScript source:
  * the JS `Map<string, CacheEntry<unknown>>` is modelled as an insertion-ordered
    association list `List (String × CacheEntry V)`; `Map.set` on an existing key
    updates the value in place (keeping the key's position in iteration order),
    `Map.set` on a fresh key appends at the end, `Map.delete` removes the key,
    and `Map.keys().next().value` is the head of the list;
  * `Date.now()` is an explicit `now : Nat` argument (epoch milliseconds); the
    age computation `Date.now() - entry.timestamp` is done in `Int`, matching JS
    number arithmetic;
  * JS truthiness of the first map key (`if (firstKey)`) is the test that the
    string is nonempty; truthiness of a cached value is an explicit
    `truthy : V → Bool` parameter of the fetch operations (the cache stores
    `unknown`);
  * thrown errors are `Except`; the network calls (`api.getFile`,
    `api.getImages`, including client initialisation) are an explicit `net`
    function argument returning `Except`;
  * `${scale}` (decimal rendering of a JS number, here a Nat) is `natRepr`,
    `nodeIds.join(",")` is `joinComma`.
-/
import Mathlib

set_option linter.unusedVariables false
set_option maxRecDepth 2000

-- ============================================================================
-- Configuration (CACHE_MAX_SIZE, CACHE_TTL_MS)
-- ============================================================================

structure Config where
  maxSize : Nat
  ttlMs : Nat
deriving DecidableEq, Repr

def CACHE_MAX_SIZE : Nat := 50

def CACHE_TTL_MS : Nat := 30 * 60 * 1000

def refConfig : Config := ⟨CACHE_MAX_SIZE, CACHE_TTL_MS⟩

-- ============================================================================
-- JS Map on strings, as an insertion-ordered association list
-- ============================================================================

def mapHas (key : String) (m : List (String × α)) : Bool :=
  m.any (fun p => p.1 == key)

def mapGet (key : String) : List (String × α) → Option α
  | [] => none
  | p :: rest => if p.1 = key then some p.2 else mapGet key rest

/-- `Map.set`: update in place when the key is present (iteration order keeps
the key's original position), append at the end otherwise. -/
def mapSet (key : String) (v : α) (m : List (String × α)) : List (String × α) :=
  if mapHas key m then
    m.map (fun p => if p.1 = key then (key, v) else p)
  else
    m ++ [(key, v)]

def mapDelete (key : String) (m : List (String × α)) : List (String × α) :=
  m.filter (fun p => ¬ p.1 = key)

/-- `Map.keys().next().value : string | undefined`. -/
def firstMapKey (m : List (String × α)) : Option String :=
  (m.map Prod.fst).head?

-- ============================================================================
-- Cache data model
-- ============================================================================

structure CacheEntry (V : Type) where
  data : V
  timestamp : Nat
deriving DecidableEq, Repr

structure CacheStats where
  hits : Nat
  misses : Nat
  size : Nat
  maxSize : Nat
  ttlMinutes : Nat
deriving DecidableEq, Repr

structure FigmaCache (V : Type) where
  cache : List (String × CacheEntry V)
  hits : Nat
  misses : Nat
deriving DecidableEq, Repr

def FigmaCache.empty : FigmaCache V := ⟨[], 0, 0⟩

/-- `FigmaCache.get`: return cached data if present and fresh, otherwise record
a miss (deleting the entry when it has expired) and return null. -/
def FigmaCache.get (cfg : Config) (now : Nat) (key : String) (c : FigmaCache V) :
    Option V × FigmaCache V :=
  match mapGet key c.cache with
  | none => (none, { c with misses := c.misses + 1 })
  | some entry =>
    -- const age = Date.now() - entry.timestamp; if (age > CACHE_TTL_MS) ...
    if (now : Int) - (entry.timestamp : Int) > (cfg.ttlMs : Int) then
      (none, { c with cache := mapDelete key c.cache, misses := c.misses + 1 })
    else
      (some entry.data, { c with hits := c.hits + 1 })

/-- `FigmaCache.set`: when the cache is full and the key is new, delete the
first key of the map — guarded by JS truthiness of that key (`if (firstKey)`),
so an empty-string first key is NOT deleted — then store the entry. -/
def FigmaCache.set (cfg : Config) (now : Nat) (key : String) (data : V)
    (c : FigmaCache V) : FigmaCache V :=
  let m :=
    if c.cache.length ≥ cfg.maxSize ∧ ¬ mapHas key c.cache then
      match firstMapKey c.cache with
      | some firstKey => if firstKey ≠ "" then mapDelete firstKey c.cache else c.cache
      | none => c.cache
    else c.cache
  { c with cache := mapSet key ⟨data, now⟩ m }

/-- `FigmaCache.clear`: remove all entries and reset both counters. -/
def FigmaCache.clear (c : FigmaCache V) : FigmaCache V := ⟨[], 0, 0⟩

/-- `FigmaCache.getStats`. -/
def FigmaCache.getStats (cfg : Config) (c : FigmaCache V) : CacheStats :=
  ⟨c.hits, c.misses, c.cache.length, cfg.maxSize, cfg.ttlMs / 60000⟩

-- ============================================================================
-- Operation sequences over the cache
-- ============================================================================

inductive Op (V : Type) where
  | get (key : String) (now : Nat)
  | set (key : String) (data : V) (now : Nat)
  | clear
  | stats
deriving DecidableEq, Repr

def stepOp (cfg : Config) (c : FigmaCache V) : Op V → FigmaCache V
  | .get key now => (FigmaCache.get cfg now key c).2
  | .set key data now => FigmaCache.set cfg now key data c
  | .clear => FigmaCache.clear c
  | .stats => c

def runOps (cfg : Config) (c : FigmaCache V) (ops : List (Op V)) : FigmaCache V :=
  ops.foldl (stepOp cfg) c

def countGetStep (n : Nat) : Op V → Nat
  | .get _ _ => n + 1
  | .clear => 0
  | _ => n

/-- Number of `get` calls issued since the last `clear` (or since the start). -/
def getsSinceClear (ops : List (Op V)) : Nat :=
  ops.foldl countGetStep 0

/-- All `set` operations of a sequence use nonempty keys. -/
def opSetKeyNonempty : Op V → Bool
  | .set k _ _ => k != ""
  | _ => true

/-- All keys of a map are nonempty strings. -/
def keysNonempty (m : List (String × α)) : Prop := ∀ p ∈ m, p.1 ≠ ""

/-- The invariant that the capacity argument maintains. -/
def cacheInv (cfg : Config) (c : FigmaCache V) : Prop :=
  keysNonempty c.cache ∧ c.cache.length ≤ cfg.maxSize

/-- Decimal parsing, the left inverse of `natDigits`. -/
def parseDigits (cs : List Char) : Nat :=
  cs.foldl (fun a ch => 10 * a + (ch.toNat - 48)) 0

/-- Fifty distinct nonempty keys. -/
def keys50 : List String :=
  ["a0", "a1", "a2", "a3", "a4", "a5", "a6", "a7", "a8", "a9",
   "b0", "b1", "b2", "b3", "b4", "b5", "b6", "b7", "b8", "b9",
   "c0", "c1", "c2", "c3", "c4", "c5", "c6", "c7", "c8", "c9",
   "d0", "d1", "d2", "d3", "d4", "d5", "d6", "d7", "d8", "d9",
   "e0", "e1", "e2", "e3", "e4", "e5", "e6", "e7", "e8", "e9"]

/-- 51 `set` calls with pairwise distinct keys, the empty string first. -/
def fiftyOneSetsEmptyFirst : List (Op Nat) :=
  ("" :: keys50).map (fun k => Op.set k 0 0)

/-- 51 `set` calls with pairwise distinct nonempty keys, `"z"` first, values
numbered in call order. -/
def fiftyOneSetsNonempty : List (Op Nat) :=
  (("z" :: keys50).enum).map (fun p => Op.set p.2 p.1 0)

-- ============================================================================
-- Cache keys of the two call sites
-- ============================================================================

/-- Decimal digits of a Nat (the rendering `${scale}` of a JS number), written
with structural fuel so that the kernel can evaluate it; `natReprLoop` is only
ever called with `fuel > n`. -/
def natReprLoop : Nat → Nat → List Char → List Char
  | 0, _, acc => acc
  | fuel + 1, n, acc =>
    if n < 10 then Nat.digitChar n :: acc
    else natReprLoop fuel (n / 10) (Nat.digitChar (n % 10) :: acc)

def natDigits (n : Nat) : List Char := natReprLoop (n + 1) n []

def natRepr (n : Nat) : String := String.mk (natDigits n)

/-- `nodeIds.join(",")`. -/
def joinComma : List String → String
  | [] => ""
  | [s] => s
  | s :: rest => s ++ "," ++ joinComma rest

/-- Cache key of `fetchFile`. -/
def fileCacheKey (key : String) : String := "file:" ++ key

/-- Cache key of `fetchImages`. -/
def imagesCacheKey (fileKey : String) (nodeIds : List String) (format : String)
    (scale : Nat) : String :=
  "images:" ++ fileKey ++ ":" ++ joinComma nodeIds ++ ":" ++ format ++ ":" ++ natRepr scale

-- ============================================================================
-- Fetch operations (fetchFile, fetchImages)
-- ============================================================================

/-- Errors thrown by the fetch operations: a missing file key, an empty
`nodeIds` array, an error of the wrapped network call (client initialisation
or the API request itself), or a response with no `images` field. -/
inductive FetchErr (ε : Type) where
  | noFileKey
  | emptyNodeIds
  | api (e : ε)
  | noImages
deriving DecidableEq, Repr

/-- `getDefaultFileKey`: read FIGMA_FILE_KEY from the environment, throwing
when it is unset or empty (`if (!fileKey) throw`). -/
def getDefaultFileKey (env : Option String) : Except (FetchErr ε) String :=
  match env with
  | some s => if s ≠ "" then .ok s else .error .noFileKey
  | none => .error .noFileKey

/-- `fileKey || getDefaultFileKey()`: a falsy argument (absent or empty string)
falls back to the environment default. -/
def resolveFileKey (env : Option String) (arg : Option String) :
    Except (FetchErr ε) String :=
  match arg with
  | some s => if s ≠ "" then .ok s else getDefaultFileKey env
  | none => getDefaultFileKey env

/-- `options?.format || "png"`. -/
def resolveFormat (arg : Option String) : String :=
  match arg with
  | some f => if f ≠ "" then f else "png"
  | none => "png"

/-- `options?.scale || 1`. -/
def resolveScale (arg : Option Nat) : Nat :=
  match arg with
  | some s => if s ≠ 0 then s else 1
  | none => 1

/-- `fetchFile`: resolve the file key, consult the cache (a truthy cached value
is returned as-is), otherwise run the network call; on success cache and return
the response, on failure rethrow without touching the cache. -/
def fetchFile (truthy : V → Bool) (cfg : Config) (now : Nat) (env : Option String)
    (fileKeyArg : Option String) (net : String → Except ε V) (c : FigmaCache V) :
    Except (FetchErr ε) V × FigmaCache V :=
  match resolveFileKey env fileKeyArg with
  | .error e => (.error e, c)
  | .ok key =>
    let cacheKey := fileCacheKey key
    let res := FigmaCache.get cfg now cacheKey c
    let c1 := res.2
    let proceed : Except (FetchErr ε) V × FigmaCache V :=
      match net key with
      | .error e => (.error (.api e), c1)
      | .ok response => (.ok response, FigmaCache.set cfg now cacheKey response c1)
    match res.1 with
    | some cached => if truthy cached then (.ok cached, c1) else proceed
    | none => proceed

/-- The response of `api.getImages`: its `images` field may be absent
(`if (!response.images) throw`). -/
structure ImagesResponse (V : Type) where
  images : Option V
deriving DecidableEq, Repr

/-- `fetchImages`: reject an empty `nodeIds`, resolve options with JS `||`
defaulting, consult the cache under the composite key, otherwise run the
network call with the resolved parameters; a response without `images` throws;
on success cache and return `response.images`. -/
def fetchImages (truthy : V → Bool) (cfg : Config) (now : Nat) (env : Option String)
    (nodeIds : List String) (fileKeyArg : Option String) (formatArg : Option String)
    (scaleArg : Option Nat)
    (net : String → String → String → Nat → Except ε (ImagesResponse V))
    (c : FigmaCache V) : Except (FetchErr ε) V × FigmaCache V :=
  if nodeIds.isEmpty then (.error .emptyNodeIds, c)
  else
    match resolveFileKey env fileKeyArg with
    | .error e => (.error e, c)
    | .ok fileKey =>
      let format := resolveFormat formatArg
      let scale := resolveScale scaleArg
      let cacheKey := imagesCacheKey fileKey nodeIds format scale
      let res := FigmaCache.get cfg now cacheKey c
      let c1 := res.2
      let proceed : Except (FetchErr ε) V × FigmaCache V :=
        match net fileKey (joinComma nodeIds) format scale with
        | .error e => (.error (.api e), c1)
        | .ok response =>
          match response.images with
          | none => (.error .noImages, c1)
          | some images => (.ok images, FigmaCache.set cfg now cacheKey images c1)
      match res.1 with
      | some cached => if truthy cached then (.ok cached, c1) else proceed
      | none => proceed

-- ============================================================================
-- Helper lemmas
-- ============================================================================

theorem get_hits_misses (cfg : Config) (now : Nat) (key : String) (c : FigmaCache V) :
    (FigmaCache.get cfg now key c).2.hits + (FigmaCache.get cfg now key c).2.misses
      = c.hits + c.misses + 1 := by
  cases h : mapGet key c.cache
  · simp [FigmaCache.get, h]
    omega
  · simp only [FigmaCache.get, h]
    split <;> simp <;> omega

theorem set_hits_misses (cfg : Config) (now : Nat) (key : String) (data : V)
    (c : FigmaCache V) :
    (FigmaCache.set cfg now key data c).hits = c.hits ∧
      (FigmaCache.set cfg now key data c).misses = c.misses := by
  simp [FigmaCache.set]

theorem run_counts (cfg : Config) (ops : List (Op V)) :
    ∀ c : FigmaCache V,
      (runOps cfg c ops).hits + (runOps cfg c ops).misses
        = ops.foldl countGetStep (c.hits + c.misses) := by
  induction ops with
  | nil => intro c; simp [runOps]
  | cons op ops ih =>
    intro c
    have hrun : runOps cfg c (op :: ops) = runOps cfg (stepOp cfg c op) ops := rfl
    have hfold : (op :: ops).foldl countGetStep (c.hits + c.misses)
        = ops.foldl countGetStep (countGetStep (c.hits + c.misses) op) := rfl
    rw [hrun, hfold, ih (stepOp cfg c op)]
    congr 1
    cases op with
    | get key now => simpa [stepOp, countGetStep] using get_hits_misses cfg now key c
    | set key data now => simp [stepOp, countGetStep, FigmaCache.set]
    | clear => simp [stepOp, countGetStep, FigmaCache.clear]
    | stats => simp [stepOp, countGetStep]

theorem mapHas_iff (key : String) (m : List (String × α)) :
    mapHas key m = true ↔ ∃ p ∈ m, p.1 = key := by
  simp [mapHas]

theorem mapHas_of_subset {key : String} {m m' : List (String × α)}
    (hsub : ∀ p ∈ m', p ∈ m) (h : mapHas key m = false) : mapHas key m' = false := by
  rw [Bool.eq_false_iff]
  intro h'
  rw [Bool.eq_false_iff] at h
  apply h
  rw [mapHas_iff] at h' ⊢
  obtain ⟨p, hp, hk⟩ := h'
  exact ⟨p, hsub p hp, hk⟩

theorem mapDelete_subset (key : String) (m : List (String × α)) :
    ∀ p ∈ mapDelete key m, p ∈ m := by
  intro p hp
  exact List.mem_of_mem_filter hp

theorem mapSet_of_has (key : String) (v : α) (m : List (String × α))
    (h : mapHas key m = true) :
    mapSet key v m = m.map (fun p => if p.1 = key then (key, v) else p) := by
  simp [mapSet, h]

theorem mapSet_of_not_has (key : String) (v : α) (m : List (String × α))
    (h : mapHas key m = false) : mapSet key v m = m ++ [(key, v)] := by
  simp [mapSet, h]

/-- `set` when the key is already present: the guard fails, `Map.set` updates
in place. -/
theorem set_eq_of_has (cfg : Config) (now : Nat) (key : String) (data : V)
    (c : FigmaCache V) (hhas : mapHas key c.cache = true) :
    FigmaCache.set cfg now key data c
      = { c with cache :=
            c.cache.map (fun p => if p.1 = key then (key, ⟨data, now⟩) else p) } := by
  have hguard : ¬ (c.cache.length ≥ cfg.maxSize ∧ ¬ mapHas key c.cache = true) :=
    fun hcon => hcon.2 hhas
  simp only [FigmaCache.set, if_neg hguard]
  rw [mapSet_of_has key _ c.cache hhas]

/-- `set` when the key is new and the cache is below capacity: plain append. -/
theorem set_eq_of_not_full (cfg : Config) (now : Nat) (key : String) (data : V)
    (c : FigmaCache V) (hhas : mapHas key c.cache = false)
    (hfull : ¬ c.cache.length ≥ cfg.maxSize) :
    FigmaCache.set cfg now key data c
      = { c with cache := c.cache ++ [(key, ⟨data, now⟩)] } := by
  have hguard : ¬ (c.cache.length ≥ cfg.maxSize ∧ ¬ mapHas key c.cache = true) :=
    fun hcon => hfull hcon.1
  simp only [FigmaCache.set, if_neg hguard]
  rw [mapSet_of_not_has key _ c.cache hhas]

/-- `set` when the key is new, the cache is at capacity and the first key is
nonempty (truthy): the first entry is deleted, then the new entry appended. -/
theorem set_eq_evict (cfg : Config) (now : Nat) (key : String) (data : V)
    (c : FigmaCache V) (hd : String × CacheEntry V) (tl : List (String × CacheEntry V))
    (hhas : mapHas key c.cache = false) (hfull : c.cache.length ≥ cfg.maxSize)
    (hc : c.cache = hd :: tl) (hhd : hd.1 ≠ "") :
    FigmaCache.set cfg now key data c
      = { c with cache := mapDelete hd.1 c.cache ++ [(key, ⟨data, now⟩)] } := by
  have hguard : c.cache.length ≥ cfg.maxSize ∧ ¬ mapHas key c.cache = true :=
    ⟨hfull, fun hcon => by rw [hhas] at hcon; exact Bool.false_ne_true hcon⟩
  have hfirst : firstMapKey c.cache = some hd.1 := by
    rw [hc]
    simp [firstMapKey]
  have hhas' : mapHas key (mapDelete hd.1 c.cache) = false :=
    mapHas_of_subset (mapDelete_subset hd.1 c.cache) hhas
  simp only [FigmaCache.set, if_pos hguard, hfirst, if_pos hhd]
  rw [mapSet_of_not_has key _ _ hhas']

/-- `set` when the key is new, the cache is at capacity and the first key is
the empty string (falsy): NO eviction happens, the new entry is appended on
top of a full cache. -/
theorem set_eq_evict_skipped (cfg : Config) (now : Nat) (key : String) (data : V)
    (c : FigmaCache V) (hd : String × CacheEntry V) (tl : List (String × CacheEntry V))
    (hhas : mapHas key c.cache = false) (hfull : c.cache.length ≥ cfg.maxSize)
    (hc : c.cache = hd :: tl) (hhd : hd.1 = "") :
    FigmaCache.set cfg now key data c
      = { c with cache := c.cache ++ [(key, ⟨data, now⟩)] } := by
  have hguard : c.cache.length ≥ cfg.maxSize ∧ ¬ mapHas key c.cache = true :=
    ⟨hfull, fun hcon => by rw [hhas] at hcon; exact Bool.false_ne_true hcon⟩
  have hfirst : firstMapKey c.cache = some hd.1 := by
    rw [hc]
    simp [firstMapKey]
  simp only [FigmaCache.set, if_pos hguard, hfirst, hhd, ne_eq, not_true_eq_false,
    if_false]
  rw [mapSet_of_not_has key _ _ hhas]

theorem mapGet_of_not_has (key : String) (m : List (String × α))
    (h : mapHas key m = false) : mapGet key m = none := by
  induction m with
  | nil => rfl
  | cons hd tl ih =>
    simp only [mapHas, List.any_cons, Bool.or_eq_false_iff, beq_eq_false_iff_ne,
      ne_eq] at h
    simp only [mapGet, if_neg h.1]
    exact ih (by simpa [mapHas] using h.2)

theorem mapGet_mapSet_self (key : String) (v : α) (m : List (String × α)) :
    mapGet key (mapSet key v m) = some v := by
  by_cases h : mapHas key m = true
  · rw [mapSet_of_has key v m h]
    induction m with
    | nil => simp [mapHas] at h
    | cons hd tl ih =>
      by_cases hk : hd.1 = key
      · simp [mapGet, hk]
      · simp only [List.map_cons, if_neg hk, mapGet, hk, if_false]
        apply ih
        simp only [mapHas, List.any_cons, Bool.or_eq_true] at h
        rcases h with h | h
        · rw [beq_iff_eq] at h
          exact absurd h hk
        · simpa [mapHas] using h
  · rw [Bool.not_eq_true] at h
    rw [mapSet_of_not_has key v m h]
    induction m with
    | nil => simp [mapGet]
    | cons hd tl ih =>
      simp only [mapHas, List.any_cons, Bool.or_eq_false_iff, beq_eq_false_iff_ne,
        ne_eq] at h
      simp only [List.cons_append, mapGet, if_neg h.1]
      exact ih (by simpa [mapHas] using h.2)

theorem mapGet_mapSet_ne (k key : String) (v : α) (m : List (String × α))
    (hne : k ≠ key) : mapGet k (mapSet key v m) = mapGet k m := by
  by_cases h : mapHas key m = true
  · rw [mapSet_of_has key v m h]
    clear h
    induction m with
    | nil => rfl
    | cons hd tl ih =>
      by_cases hk : hd.1 = key
      · have h1 : ¬ (key, v).1 = k := fun hcon => hne (by rw [← hcon])
        have h2 : ¬ hd.1 = k := by rw [hk]; exact fun hcon => hne (by rw [← hcon])
        simp only [List.map_cons, if_pos hk, mapGet, if_neg h1, if_neg h2, ih]
      · simp only [List.map_cons, if_neg hk, mapGet, ih]
  · rw [Bool.not_eq_true] at h
    rw [mapSet_of_not_has key v m h]
    clear h
    induction m with
    | nil =>
      simp only [List.nil_append, mapGet]
      rw [if_neg (fun hcon => hne hcon.symm)]
    | cons hd tl ih =>
      by_cases hdk : hd.1 = k
      · simp [mapGet, hdk]
      · simpa [mapGet, hdk, List.append_eq] using ih

theorem mapSet_keys_of_has (key : String) (v : α) (m : List (String × α))
    (h : mapHas key m = true) :
    (mapSet key v m).map Prod.fst = m.map Prod.fst := by
  rw [mapSet_of_has key v m h, List.map_map]
  apply List.map_congr_left
  intro p hp
  by_cases hk : p.1 = key
  · simp [hk]
  · simp [hk]

theorem mapGet_mapDelete (k key : String) (m : List (String × α)) :
    mapGet k (mapDelete key m) = if k = key then none else mapGet k m := by
  induction m with
  | nil => simp [mapDelete, mapGet]
  | cons hd tl ih =>
    by_cases hd1 : hd.1 = key
    · have hstep : mapDelete key (hd :: tl) = mapDelete key tl := by
        simp [mapDelete, List.filter_cons, hd1]
      rw [hstep, ih]
      by_cases hk : k = key
      · simp [hk]
      · have hne2 : ¬ hd.1 = k := by rw [hd1]; exact fun hcon => hk hcon.symm
        simp [hk, mapGet, hne2]
    · have hstep : mapDelete key (hd :: tl) = hd :: mapDelete key tl := by
        simp [mapDelete, List.filter_cons, hd1]
      rw [hstep]
      simp only [mapGet]
      by_cases hdk : hd.1 = k
      · have hkne : ¬ k = key := fun hcon => hd1 (by rw [hdk, hcon])
        simp [hdk, hkne]
      · simp [hdk, ih]

theorem set_inv (cfg : Config) (now : Nat) (key : String) (data : V)
    (c : FigmaCache V) (hmax : 1 ≤ cfg.maxSize) (hkey : key ≠ "")
    (h : cacheInv cfg c) : cacheInv cfg (FigmaCache.set cfg now key data c) := by
  obtain ⟨hne, hlen⟩ := h
  by_cases hhas : mapHas key c.cache = true
  · rw [set_eq_of_has cfg now key data c hhas]
    constructor
    · intro p hp
      obtain ⟨q, hq, hpq⟩ := List.mem_map.mp hp
      by_cases hqk : q.1 = key
      · rw [if_pos hqk] at hpq
        rw [← hpq]
        exact hkey
      · rw [if_neg hqk] at hpq
        rw [← hpq]
        exact hne q hq
    · simpa using hlen
  · rw [Bool.not_eq_true] at hhas
    by_cases hfull : c.cache.length ≥ cfg.maxSize
    · cases hc : c.cache with
      | nil =>
        rw [hc] at hfull
        simp at hfull
        omega
      | cons hd tl =>
        have hhd : hd.1 ≠ "" := hne hd (by rw [hc]; exact List.mem_cons_self hd tl)
        rw [set_eq_evict cfg now key data c hd tl hhas hfull hc hhd]
        constructor
        · intro p hp
          rcases List.mem_append.mp hp with hp' | hp'
          · exact hne p (mapDelete_subset hd.1 c.cache p hp')
          · simp only [List.mem_singleton] at hp'
            rw [hp']
            exact hkey
        · have hdel : (mapDelete hd.1 c.cache).length ≤ tl.length := by
            rw [hc]
            have hstep : mapDelete hd.1 (hd :: tl)
                = List.filter (fun p => ¬ p.1 = hd.1) tl := by
              simp [mapDelete, List.filter_cons]
            rw [hstep]
            exact List.length_filter_le _ tl
          have htl : tl.length + 1 = c.cache.length := by rw [hc]; rfl
          simp only [List.length_append, List.length_cons, List.length_nil]
          omega
    · rw [set_eq_of_not_full cfg now key data c hhas hfull]
      constructor
      · intro p hp
        rcases List.mem_append.mp hp with hp' | hp'
        · exact hne p hp'
        · simp only [List.mem_singleton] at hp'
          rw [hp']
          exact hkey
      · simp only [List.length_append, List.length_cons, List.length_nil]
        omega

theorem get_inv (cfg : Config) (now : Nat) (key : String) (c : FigmaCache V)
    (h : cacheInv cfg c) : cacheInv cfg (FigmaCache.get cfg now key c).2 := by
  obtain ⟨hne, hlen⟩ := h
  cases hg : mapGet key c.cache
  · simpa [FigmaCache.get, hg] using ⟨hne, hlen⟩
  · simp only [FigmaCache.get, hg]
    split
    · refine ⟨fun p hp => hne p (mapDelete_subset key c.cache p hp), ?_⟩
      calc (mapDelete key c.cache).length ≤ c.cache.length := List.length_filter_le _ _
        _ ≤ cfg.maxSize := hlen
    · exact ⟨hne, hlen⟩

theorem stepOp_inv (cfg : Config) (c : FigmaCache V) (op : Op V)
    (hmax : 1 ≤ cfg.maxSize) (hop : opSetKeyNonempty op = true)
    (h : cacheInv cfg c) : cacheInv cfg (stepOp cfg c op) := by
  cases op with
  | get key now => exact get_inv cfg now key c h
  | set key data now =>
    have hkey : key ≠ "" := by simpa [opSetKeyNonempty] using hop
    exact set_inv cfg now key data c hmax hkey h
  | clear => exact ⟨fun p hp => (nomatch hp), Nat.zero_le _⟩
  | stats => exact h

theorem runOps_inv (cfg : Config) (ops : List (Op V)) (hmax : 1 ≤ cfg.maxSize)
    (hops : ∀ op ∈ ops, opSetKeyNonempty op = true) :
    ∀ c : FigmaCache V, cacheInv cfg c → cacheInv cfg (runOps cfg c ops) := by
  induction ops with
  | nil => intro c h; exact h
  | cons op ops ih =>
    intro c h
    have h1 : cacheInv cfg (stepOp cfg c op) :=
      stepOp_inv cfg c op hmax (hops op (List.mem_cons_self op ops)) h
    exact ih (fun o ho => hops o (List.mem_cons_of_mem op ho)) (stepOp cfg c op) h1

-- ============================================================================
-- Cache-key parsing lemmas (for C5)
-- ============================================================================

/-- A delimiter-separated concatenation determines its first segment when the
segments before the delimiter are delimiter-free. -/
theorem sepSplit (d : Char) :
    ∀ (a c b e : List Char), d ∉ a → d ∉ c → a ++ d :: b = c ++ d :: e →
      a = c ∧ b = e := by
  intro a
  induction a with
  | nil =>
    intro c b e ha hc h
    cases c with
    | nil =>
      simp only [List.nil_append] at h
      exact ⟨rfl, by injection h⟩
    | cons x c' =>
      simp only [List.nil_append, List.cons_append] at h
      injection h with h1 h2
      exact absurd (h1 ▸ List.mem_cons_self x c') (h1 ▸ hc)
  | cons x a' ih =>
    intro c b e ha hc h
    cases c with
    | nil =>
      simp only [List.cons_append, List.nil_append] at h
      injection h with h1 h2
      exact absurd (h1 ▸ List.mem_cons_self x a') (h1 ▸ ha)
    | cons y c' =>
      simp only [List.cons_append] at h
      injection h with h1 h2
      have ha' : d ∉ a' := fun hmem => ha (List.mem_cons_of_mem x hmem)
      have hc' : d ∉ c' := fun hmem => hc (List.mem_cons_of_mem y hmem)
      obtain ⟨hac, hbe⟩ := ih c' b e ha' hc' h2
      exact ⟨by rw [h1, hac], hbe⟩

theorem digitChar_toNat : ∀ d, d < 10 → (Nat.digitChar d).toNat - 48 = d := by
  decide

theorem natReprLoop_append :
    ∀ (fuel n : Nat) (acc : List Char),
      natReprLoop fuel n acc = natReprLoop fuel n [] ++ acc := by
  intro fuel
  induction fuel with
  | zero => intro n acc; rfl
  | succ g ih =>
    intro n acc
    by_cases h : n < 10
    · simp only [natReprLoop, if_pos h]
      rfl
    · simp only [natReprLoop, if_neg h]
      rw [ih (n / 10) (Nat.digitChar (n % 10) :: acc),
        ih (n / 10) [Nat.digitChar (n % 10)]]
      simp

theorem natReprLoop_fuel :
    ∀ (f1 f2 n : Nat), n < f1 → n < f2 →
      natReprLoop f1 n [] = natReprLoop f2 n [] := by
  intro f1
  induction f1 with
  | zero => intro f2 n h1; omega
  | succ g ih =>
    intro f2 n h1 h2
    cases f2 with
    | zero => omega
    | succ h =>
      by_cases hn : n < 10
      · simp only [natReprLoop, if_pos hn]
      · simp only [natReprLoop, if_neg hn]
        rw [natReprLoop_append g (n / 10) _, natReprLoop_append h (n / 10) _]
        have hd : n / 10 < n := Nat.div_lt_self (by omega) (by omega)
        rw [ih h (n / 10) (by omega) (by omega)]

theorem natDigits_lt (n : Nat) (h : n < 10) : natDigits n = [Nat.digitChar n] := by
  simp only [natDigits, natReprLoop, if_pos h]

theorem natDigits_ge (n : Nat) (h : ¬ n < 10) :
    natDigits n = natDigits (n / 10) ++ [Nat.digitChar (n % 10)] := by
  have h1 : natDigits n = natReprLoop n (n / 10) [Nat.digitChar (n % 10)] := by
    simp only [natDigits, natReprLoop, if_neg h]
  rw [h1, natReprLoop_append n (n / 10) _]
  have hd : n / 10 < n := Nat.div_lt_self (by omega) (by omega)
  rw [natReprLoop_fuel n (n / 10 + 1) (n / 10) (by omega) (by omega)]
  rfl

theorem parseDigits_natDigits : ∀ n, parseDigits (natDigits n) = n := by
  intro n
  induction n using Nat.strong_induction_on with
  | _ n ih =>
    by_cases h : n < 10
    · rw [natDigits_lt n h]
      simp only [parseDigits, List.foldl_cons, List.foldl_nil]
      rw [digitChar_toNat n h]
      omega
    · rw [natDigits_ge n h]
      have hd : n / 10 < n := Nat.div_lt_self (by omega) (by omega)
      have hmod : n % 10 < 10 := Nat.mod_lt n (by omega)
      simp only [parseDigits, List.foldl_append, List.foldl_cons, List.foldl_nil]
      have hp : List.foldl (fun a ch => 10 * a + (ch.toNat - 48)) 0 (natDigits (n / 10))
          = n / 10 := ih (n / 10) hd
      rw [hp, digitChar_toNat (n % 10) hmod]
      omega

theorem natRepr_injective (m n : Nat) (h : natRepr m = natRepr n) : m = n := by
  have hdata : natDigits m = natDigits n := congrArg String.data h
  have := congrArg parseDigits hdata
  rwa [parseDigits_natDigits, parseDigits_natDigits] at this

theorem comma_data : ("," : String).data = [','] := rfl

theorem colon_data : (":" : String).data = [':'] := rfl

theorem natRepr_data (s : Nat) : (natRepr s).data = natDigits s := rfl

theorem joinComma_cons2 (s r : String) (t : List String) :
    joinComma (s :: r :: t) = s ++ "," ++ joinComma (r :: t) := rfl

theorem data_joinComma_cons2 (s r : String) (t : List String) :
    (joinComma (s :: r :: t)).data = s.data ++ ',' :: (joinComma (r :: t)).data := by
  rw [joinComma_cons2]
  simp [String.data_append, comma_data]

theorem not_mem_joinComma (ch : Char) (hch : ch ≠ ',') :
    ∀ (l : List String), (∀ s ∈ l, ch ∉ s.data) → ch ∉ (joinComma l).data := by
  intro l
  induction l with
  | nil =>
    intro h
    simp [joinComma]
  | cons s t ih =>
    intro h
    cases t with
    | nil => exact h s (List.mem_cons_self s [])
    | cons r t' =>
      rw [data_joinComma_cons2]
      intro hmem
      rcases List.mem_append.mp hmem with hmem' | hmem'
      · exact h s (List.mem_cons_self s _) hmem'
      · rcases List.mem_cons.mp hmem' with hmem2 | hmem2
        · exact hch hmem2
        · exact ih (fun x hx => h x (List.mem_cons_of_mem s hx)) hmem2

theorem joinComma_injective :
    ∀ (l1 l2 : List String), l1 ≠ [] → l2 ≠ [] →
      (∀ s ∈ l1, ',' ∉ s.data) → (∀ s ∈ l2, ',' ∉ s.data) →
      joinComma l1 = joinComma l2 → l1 = l2 := by
  intro l1
  induction l1 with
  | nil => intro l2 h1; exact absurd rfl h1
  | cons s t ih =>
    intro l2 h1 h2 hc1 hc2 heq
    cases l2 with
    | nil => exact absurd rfl h2
    | cons q u =>
      cases t with
      | nil =>
        cases u with
        | nil =>
          rw [show joinComma [s] = s from rfl, show joinComma [q] = q from rfl]
            at heq
          rw [heq]
        | cons r u' =>
          have hdata := congrArg String.data heq
          rw [show (joinComma [s]).data = s.data from rfl,
            data_joinComma_cons2] at hdata
          have hmem : ',' ∈ s.data := by
            rw [hdata]
            exact List.mem_append_right _ (List.mem_cons_self _ _)
          exact absurd hmem (hc1 s (List.mem_cons_self s []))
      | cons r t' =>
        cases u with
        | nil =>
          have hdata := congrArg String.data heq
          rw [data_joinComma_cons2,
            show (joinComma [q]).data = q.data from rfl] at hdata
          have hmem : ',' ∈ q.data := by
            rw [← hdata]
            exact List.mem_append_right _ (List.mem_cons_self _ _)
          exact absurd hmem (hc2 q (List.mem_cons_self q []))
        | cons r2 u' =>
          have hdata := congrArg String.data heq
          rw [data_joinComma_cons2, data_joinComma_cons2] at hdata
          obtain ⟨hsq, hjj⟩ := sepSplit ',' s.data q.data _ _
            (hc1 s (List.mem_cons_self s _)) (hc2 q (List.mem_cons_self q _)) hdata
          have hs : s = q := String.ext hsq
          have hj : joinComma (r :: t') = joinComma (r2 :: u') := String.ext hjj
          have ht : r :: t' = r2 :: u' := ih (r2 :: u') (by simp) (by simp)
            (fun x hx => hc1 x (List.mem_cons_of_mem s hx))
            (fun x hx => hc2 x (List.mem_cons_of_mem q hx)) hj
          rw [hs, ht]

theorem imagesCacheKey_data (f : String) (n : List String) (fo : String) (s : Nat) :
    (imagesCacheKey f n fo s).data
      = ("images:" : String).data
          ++ (f.data ++ ':' :: ((joinComma n).data
            ++ ':' :: (fo.data ++ ':' :: natDigits s))) := by
  simp [imagesCacheKey, String.data_append, colon_data, natRepr_data,
    List.append_assoc, List.singleton_append]

-- ============================================================================
-- Claims
-- ============================================================================

/-- C2 — Freshness (lazy expiry): `get` returns a stored value iff an entry for
the key exists and its age `now - timestamp` is at most the TTL; when it exists
it returns exactly the stored data; when the entry exists but its age exceeds
the TTL, `get` removes the entry, increments `missCount` and returns absent,
with no other operation involved. -/
theorem C2_freshness (cfg : Config) (now : Nat) (key : String) (c : FigmaCache V) :
    ((FigmaCache.get cfg now key c).1.isSome ↔
      ∃ e, mapGet key c.cache = some e ∧
        (now : Int) - (e.timestamp : Int) ≤ (cfg.ttlMs : Int)) ∧
    (∀ e, mapGet key c.cache = some e →
      (now : Int) - (e.timestamp : Int) ≤ (cfg.ttlMs : Int) →
      (FigmaCache.get cfg now key c).1 = some e.data) ∧
    (∀ e, mapGet key c.cache = some e →
      (now : Int) - (e.timestamp : Int) > (cfg.ttlMs : Int) →
      (FigmaCache.get cfg now key c).1 = none ∧
      (FigmaCache.get cfg now key c).2.cache = mapDelete key c.cache ∧
      (FigmaCache.get cfg now key c).2.misses = c.misses + 1) := by
  refine ⟨?_, ?_, ?_⟩
  · cases h : mapGet key c.cache with
    | none => simp [FigmaCache.get, h]
    | some e =>
      simp only [FigmaCache.get, h]
      split <;> rename_i hage
      · simp only [Option.isSome_none, Bool.false_eq_true, false_iff]
        rintro ⟨e', he', hle⟩
        injection he' with he2
        subst he2
        omega
      · simp only [Option.isSome_some, true_iff]
        exact ⟨e, rfl, by omega⟩
  · intro e he hle
    simp only [FigmaCache.get, he]
    split <;> rename_i hage
    · omega
    · rfl
  · intro e he hgt
    simp only [FigmaCache.get, he]
    split <;> rename_i hage
    · exact ⟨rfl, rfl, rfl⟩
    · omega

/-- C2 witness: concrete instance of the freshness theorem. -/
theorem C2_witness :
    (FigmaCache.get refConfig 1800000 "k"
      (⟨[("k", ⟨5, 0⟩)], 0, 0⟩ : FigmaCache Nat)).1 = some 5 :=
  (C2_freshness refConfig 1800000 "k" ⟨[("k", ⟨5, 0⟩)], 0, 0⟩).2.1
    ⟨5, 0⟩ (by decide) (by decide)

/-- C7 — Clear resets everything: after `clear()`, the statistics report size,
hits and misses all zero, and `get` on any key (in particular any key
previously set) returns absent. -/
theorem C7_clear_resets (cfg : Config) (c : FigmaCache V) :
    FigmaCache.getStats cfg (FigmaCache.clear c)
        = ⟨0, 0, 0, cfg.maxSize, cfg.ttlMs / 60000⟩ ∧
      ∀ key now, (FigmaCache.get cfg now key (FigmaCache.clear c)).1 = none := by
  constructor
  · rfl
  · intro key now
    simp [FigmaCache.get, FigmaCache.clear, mapGet]

/-- C6 — Hit/miss accounting: for every operation sequence starting from the
empty cache, `hits + misses` equals the number of `get` calls since the last
`clear` (or since creation); and every single operation other than `clear`
leaves both counters non-decreasing, while `clear` resets both to zero. -/
theorem C6_accounting (cfg : Config) :
    (∀ ops : List (Op V),
      (runOps cfg FigmaCache.empty ops).hits + (runOps cfg FigmaCache.empty ops).misses
        = getsSinceClear ops) ∧
    (∀ (c : FigmaCache V) (op : Op V),
      match op with
      | .clear => (stepOp cfg c op).hits = 0 ∧ (stepOp cfg c op).misses = 0
      | _ => c.hits ≤ (stepOp cfg c op).hits ∧ c.misses ≤ (stepOp cfg c op).misses) := by
  constructor
  · intro ops
    have h := run_counts cfg ops FigmaCache.empty
    simpa [FigmaCache.empty, getsSinceClear] using h
  · intro c op
    cases op with
    | get key now =>
      simp only [stepOp]
      cases h : mapGet key c.cache
      · simp [FigmaCache.get, h]
      · simp only [FigmaCache.get, h]
        split <;> simp
    | set key data now => simp [stepOp, FigmaCache.set]
    | clear => exact ⟨rfl, rfl⟩
    | stats => simp [stepOp]

/-- C1 counterexample: with keys allowed to be arbitrary strings, 51 `set`
calls with pairwise distinct keys — the empty string first — leave the cache
with 51 entries, exceeding `maxSize = 50`: the eviction guard `if (firstKey)`
treats the empty-string first key as falsy and skips the eviction. -/
theorem C1_counterexample :
    (runOps refConfig FigmaCache.empty fiftyOneSetsEmptyFirst).cache.length
      > refConfig.maxSize := by
  decide

/-- C1 (amended) — Capacity invariant for nonempty keys: starting from the
empty cache, for every sequence of operations whose `set` calls all use
nonempty keys, the number of entries never exceeds `maxSize` (for any positive
`maxSize`, in particular the reference value 50). -/
theorem C1_capacity_nonempty_keys (cfg : Config) (ops : List (Op V))
    (hmax : 1 ≤ cfg.maxSize)
    (hkeys : ∀ op ∈ ops, opSetKeyNonempty op = true) :
    (runOps cfg FigmaCache.empty ops).cache.length ≤ cfg.maxSize :=
  (runOps_inv cfg ops hmax hkeys FigmaCache.empty
    ⟨fun p hp => (nomatch hp), Nat.zero_le _⟩).2

/-- C1 witness: concrete instance of the amended capacity invariant. -/
theorem C1_witness :
    (runOps refConfig FigmaCache.empty
      [Op.set "a" (0 : Nat) 0, Op.set "b" 0 0, Op.set "a" 1 2]).cache.length
      ≤ refConfig.maxSize :=
  C1_capacity_nonempty_keys refConfig _ (by decide) (by decide)

/-- C3 counterexample: `set "a"`, `set "b"`, then `set "a"` again (a refresh).
The refreshed key "a" is still the FIRST key in the mapping's iteration order,
not the last — JS `Map.set` on an existing key keeps its original position, so
the refresh is not equivalent to delete+reinsert for ordering purposes. -/
theorem C3_counterexample :
    ((runOps refConfig FigmaCache.empty
        [Op.set "a" (1 : Nat) 0, Op.set "b" 2 0, Op.set "a" 3 5]).cache.map
          Prod.fst = ["a", "b"]) ∧
      (["a", "b"].getLast? ≠ some "a") := by
  decide

/-- C3 (amended) — Refresh on overwrite: `set` on a key already present
overwrites its value and resets its timestamp to now, so an immediate `get`
returns the new value and counts as a hit regardless of how old the previous
entry was; but the key KEEPS its original position in the mapping's iteration
order (the refresh is not equivalent to delete+reinsert). -/
theorem C3_refresh_keeps_position (cfg : Config) (now : Nat) (key : String)
    (data : V) (c : FigmaCache V) :
    (mapHas key c.cache = true →
      ((FigmaCache.set cfg now key data c).cache.map Prod.fst
          = c.cache.map Prod.fst) ∧
      mapGet key (FigmaCache.set cfg now key data c).cache = some ⟨data, now⟩) ∧
    ((FigmaCache.get cfg now key (FigmaCache.set cfg now key data c)).1
        = some data ∧
      (FigmaCache.get cfg now key (FigmaCache.set cfg now key data c)).2.hits
        = c.hits + 1) := by
  have hex : ∃ m, (FigmaCache.set cfg now key data c).cache
      = mapSet key ⟨data, now⟩ m := by
    refine ⟨if c.cache.length ≥ cfg.maxSize ∧ ¬ mapHas key c.cache = true then
      match firstMapKey c.cache with
      | some firstKey => if firstKey ≠ "" then mapDelete firstKey c.cache else c.cache
      | none => c.cache
    else c.cache, rfl⟩
  obtain ⟨m, hcache⟩ := hex
  have hget : mapGet key (FigmaCache.set cfg now key data c).cache
      = some ⟨data, now⟩ := by
    rw [hcache]
    exact mapGet_mapSet_self key _ m
  constructor
  · intro hhas
    constructor
    · have hguard : ¬ (c.cache.length ≥ cfg.maxSize ∧ ¬ mapHas key c.cache = true) :=
        fun hcon => hcon.2 hhas
      have hc2 : (FigmaCache.set cfg now key data c).cache
          = mapSet key ⟨data, now⟩ c.cache := by
        simp only [FigmaCache.set, if_neg hguard]
      rw [hc2]
      exact mapSet_keys_of_has key _ c.cache hhas
    · exact hget
  · have hfresh : ¬ ((now : Int) - ((now : Nat) : Int) > (cfg.ttlMs : Int)) := by
      omega
    have hhits : (FigmaCache.set cfg now key data c).hits = c.hits := rfl
    constructor
    · simp only [FigmaCache.get, hget, if_neg hfresh]
    · simp only [FigmaCache.get, hget, if_neg hfresh, hhits]

/-- C3 witness: concrete instance of the refresh theorem. -/
theorem C3_witness :
    ((FigmaCache.set refConfig 9 "a" (5 : Nat)
        ⟨[("a", ⟨1, 0⟩), ("b", ⟨2, 0⟩)], 3, 4⟩).cache.map Prod.fst
      = ["a", "b"]) ∧
    mapGet "a" (FigmaCache.set refConfig 9 "a" (5 : Nat)
        ⟨[("a", ⟨1, 0⟩), ("b", ⟨2, 0⟩)], 3, 4⟩).cache = some ⟨5, 9⟩ := by
  have h := (C3_refresh_keeps_position refConfig 9 "a" (5 : Nat)
    ⟨[("a", ⟨1, 0⟩), ("b", ⟨2, 0⟩)], 3, 4⟩).1 (by decide)
  exact ⟨by rw [h.1]; rfl, h.2⟩

/-- C4 counterexample: 51 `set` calls with pairwise distinct keys
`k1..k51` where `k1 = ""` — contrary to the claim, no entry is evicted
(the falsy-key guard skips the eviction) and `get(k1)` returns its stored
value rather than absent. -/
theorem C4_counterexample :
    (FigmaCache.get refConfig 0 ""
        (runOps refConfig FigmaCache.empty fiftyOneSetsEmptyFirst)).1
      = some 0 := by
  decide

/-- C4 (amended) — Insertion-order eviction for nonempty keys: (generic part)
when `set` is called with a key not present, the mapping holds at least
`maxSize` entries, and the first key in insertion order is nonempty and not
repeated, exactly the first entry is evicted and the new entry appended;
(concrete part) with `maxSize = 50` and 51 `set` calls with pairwise distinct
nonempty keys, a subsequent `get` of the first key returns absent while a
`get` of the last key returns its stored value. -/
theorem C4_eviction_order :
    (∀ (cfg : Config) (now : Nat) (key : String) (data : V) (c : FigmaCache V)
        (hd : String × CacheEntry V) (tl : List (String × CacheEntry V)),
      mapHas key c.cache = false → c.cache.length ≥ cfg.maxSize →
      c.cache = hd :: tl → hd.1 ≠ "" → (∀ p ∈ tl, p.1 ≠ hd.1) →
      (FigmaCache.set cfg now key data c).cache = tl ++ [(key, ⟨data, now⟩)]) ∧
    ((FigmaCache.get refConfig 0 "z"
        (runOps refConfig FigmaCache.empty fiftyOneSetsNonempty)).1 = none ∧
      (FigmaCache.get refConfig 0 "e9"
        (runOps refConfig FigmaCache.empty fiftyOneSetsNonempty)).1 = some 50) := by
  constructor
  · intro cfg now key data c hd tl hhas hfull hc hhd hnd
    rw [set_eq_evict cfg now key data c hd tl hhas hfull hc hhd]
    have hdel : mapDelete hd.1 c.cache = tl := by
      rw [hc]
      have hstep : mapDelete hd.1 (hd :: tl)
          = List.filter (fun p => ¬ p.1 = hd.1) tl := by
        simp [mapDelete, List.filter_cons]
      rw [hstep]
      exact List.filter_eq_self.mpr (fun p hp => by simpa using hnd p hp)
    rw [hdel]
  · constructor <;> decide

theorem get_no_gain (cfg : Config) (now : Nat) (key : String) (c : FigmaCache V)
    (k : String) (v : CacheEntry V)
    (h : mapGet k (FigmaCache.get cfg now key c).2.cache = some v) :
    mapGet k c.cache = some v := by
  cases hm : mapGet key c.cache with
  | none =>
    simp only [FigmaCache.get, hm] at h
    exact h
  | some entry =>
    simp only [FigmaCache.get, hm] at h
    split at h
    · simp only at h
      rw [mapGet_mapDelete] at h
      split at h
      · exact absurd h (by simp)
      · exact h
    · exact h

theorem getDefaultFileKey_error (env : Option String) (x : FetchErr ε)
    (h : getDefaultFileKey env = Except.error x) : x = FetchErr.noFileKey := by
  cases env with
  | some s =>
    simp only [getDefaultFileKey] at h
    split at h
    · exact absurd h (by simp)
    · injection h with h1
      exact h1.symm
  | none =>
    simp only [getDefaultFileKey] at h
    injection h with h1
    exact h1.symm

theorem resolveFileKey_error (env arg : Option String) (x : FetchErr ε)
    (h : resolveFileKey env arg = Except.error x) : x = FetchErr.noFileKey := by
  cases arg with
  | some s =>
    simp only [resolveFileKey] at h
    split at h
    · exact absurd h (by simp)
    · exact getDefaultFileKey_error env x h
  | none => exact getDefaultFileKey_error env x h

/-- When all entries cached under the file key are falsy, `fetchFile` with a
succeeding network call returns the network response. -/
theorem fetchFile_proceeds (truthy : V → Bool) (cfg : Config) (now : Nat)
    (env fk : Option String) (key : String) (r : V) (c' : FigmaCache V)
    (hkey : resolveFileKey (ε := ε) env fk = Except.ok key)
    (hfalsy : ∀ e, mapGet (fileCacheKey key) c'.cache = some e →
      truthy e.data = false) :
    (fetchFile truthy cfg now env fk (fun s => (Except.ok r : Except ε V)) c').1
      = Except.ok r := by
  simp only [fetchFile, hkey]
  cases hm : mapGet (fileCacheKey key) c'.cache with
  | none => simp [FigmaCache.get, hm]
  | some entry =>
    simp only [FigmaCache.get, hm]
    by_cases hage : (now : Int) - (entry.timestamp : Int) > (cfg.ttlMs : Int)
    · rw [if_pos hage]
    · rw [if_neg hage]
      simp [hfalsy entry hm]

/-- A failing `fetchFile` leaves the cache equal to what the lookup alone
produced (unchanged, or with the expired entry removed), and any entry still
cached under the file's key is falsy. -/
theorem fetchFile_error_cases (truthy : V → Bool) (cfg : Config) (now : Nat)
    (env fk : Option String) (net : String → Except ε V) (c : FigmaCache V)
    (err : FetchErr ε)
    (hres : (fetchFile truthy cfg now env fk net c).1 = Except.error err)
    (hnotkey : err ≠ FetchErr.noFileKey) :
    ∃ key, resolveFileKey (ε := ε) env fk = Except.ok key ∧
      ((fetchFile truthy cfg now env fk net c).2.cache = c.cache ∨
       (fetchFile truthy cfg now env fk net c).2.cache
         = mapDelete (fileCacheKey key) c.cache) ∧
      (∀ e', mapGet (fileCacheKey key)
          (fetchFile truthy cfg now env fk net c).2.cache = some e' →
        truthy e'.data = false) := by
  cases hkr : resolveFileKey (ε := ε) env fk with
  | error x =>
    have hF : fetchFile truthy cfg now env fk net c = (Except.error x, c) := by
      simp only [fetchFile, hkr]
    rw [hF] at hres
    injection hres with h1
    exact absurd (h1 ▸ resolveFileKey_error env fk x hkr) hnotkey
  | ok key =>
    refine ⟨key, rfl, ?_⟩
    cases hm : mapGet (fileCacheKey key) c.cache with
    | none =>
      cases hnet : net key with
      | error e2 =>
        have hF : fetchFile truthy cfg now env fk net c
            = (Except.error (FetchErr.api e2), { c with misses := c.misses + 1 }) := by
          simp only [fetchFile, hkr, FigmaCache.get, hm, hnet]
        rw [hF]
        refine ⟨Or.inl rfl, ?_⟩
        intro e' h'
        have h2 : mapGet (fileCacheKey key) c.cache = some e' := h'
        rw [hm] at h2
        exact Option.noConfusion h2
      | ok r =>
        have hF : (fetchFile truthy cfg now env fk net c).1 = Except.ok r := by
          simp only [fetchFile, hkr, FigmaCache.get, hm, hnet]
        rw [hF] at hres
        exact Except.noConfusion hres
    | some entry =>
      by_cases hage : (now : Int) - (entry.timestamp : Int) > (cfg.ttlMs : Int)
      · cases hnet : net key with
        | error e2 =>
          have hF : fetchFile truthy cfg now env fk net c
              = (Except.error (FetchErr.api e2),
                 { c with cache := mapDelete (fileCacheKey key) c.cache,
                          misses := c.misses + 1 }) := by
            simp only [fetchFile, hkr, FigmaCache.get, hm, if_pos hage, hnet]
          rw [hF]
          refine ⟨Or.inr rfl, ?_⟩
          intro e' h'
          have h2 : mapGet (fileCacheKey key) (mapDelete (fileCacheKey key) c.cache)
              = some e' := h'
          rw [mapGet_mapDelete] at h2
          simp at h2
        | ok r =>
          have hF : (fetchFile truthy cfg now env fk net c).1 = Except.ok r := by
            simp only [fetchFile, hkr, FigmaCache.get, hm, if_pos hage, hnet]
          rw [hF] at hres
          exact Except.noConfusion hres
      · by_cases ht : truthy entry.data = true
        · have hF : (fetchFile truthy cfg now env fk net c).1
              = Except.ok entry.data := by
            simp [fetchFile, hkr, FigmaCache.get, hm, if_neg hage, ht]
          rw [hF] at hres
          exact Except.noConfusion hres
        · rw [Bool.not_eq_true] at ht
          cases hnet : net key with
          | error e2 =>
            have hF : fetchFile truthy cfg now env fk net c
                = (Except.error (FetchErr.api e2), { c with hits := c.hits + 1 }) := by
              simp [fetchFile, hkr, FigmaCache.get, hm, if_neg hage, ht, hnet]
            rw [hF]
            refine ⟨Or.inl rfl, ?_⟩
            intro e' h'
            have h2 : mapGet (fileCacheKey key) c.cache = some e' := h'
            rw [hm] at h2
            injection h2 with h3
            rw [← h3]
            exact ht
          | ok r =>
            have hF : (fetchFile truthy cfg now env fk net c).1 = Except.ok r := by
              simp [fetchFile, hkr, FigmaCache.get, hm, if_neg hage, ht, hnet]
            rw [hF] at hres
            exact Except.noConfusion hres

/-- When all entries cached under the images key are falsy, `fetchImages` with
a succeeding network call returns the network response's images. -/
theorem fetchImages_proceeds (truthy : V → Bool) (cfg : Config) (now : Nat)
    (env : Option String) (nodeIds : List String) (fk fmt : Option String)
    (scl : Option Nat) (fileKey : String) (r : V) (c' : FigmaCache V)
    (hkey : resolveFileKey (ε := ε) env fk = Except.ok fileKey)
    (hne : nodeIds.isEmpty = false)
    (hfalsy : ∀ e, mapGet (imagesCacheKey fileKey nodeIds (resolveFormat fmt)
        (resolveScale scl)) c'.cache = some e → truthy e.data = false) :
    (fetchImages truthy cfg now env nodeIds fk fmt scl
      (fun a b d s => (Except.ok ⟨some r⟩ : Except ε (ImagesResponse V))) c').1
      = Except.ok r := by
  simp only [fetchImages, hne, Bool.false_eq_true, if_false, hkey]
  cases hm : mapGet (imagesCacheKey fileKey nodeIds (resolveFormat fmt)
      (resolveScale scl)) c'.cache with
  | none => simp [FigmaCache.get, hm]
  | some entry =>
    simp only [FigmaCache.get, hm]
    by_cases hage : (now : Int) - (entry.timestamp : Int) > (cfg.ttlMs : Int)
    · rw [if_pos hage]
    · rw [if_neg hage]
      simp [hfalsy entry hm]

/-- A failing `fetchImages` leaves the cache equal to what the lookup alone
produced, and any entry still cached under the images key is falsy. -/
theorem fetchImages_error_cases (truthy : V → Bool) (cfg : Config) (now : Nat)
    (env : Option String) (nodeIds : List String) (fk fmt : Option String)
    (scl : Option Nat) (net : String → String → String → Nat → Except ε (ImagesResponse V))
    (c : FigmaCache V) (err : FetchErr ε)
    (hres : (fetchImages truthy cfg now env nodeIds fk fmt scl net c).1
      = Except.error err)
    (hnotkey : err ≠ FetchErr.noFileKey) (hnotempty : err ≠ FetchErr.emptyNodeIds) :
    ∃ fileKey, resolveFileKey (ε := ε) env fk = Except.ok fileKey ∧
      nodeIds.isEmpty = false ∧
      ((fetchImages truthy cfg now env nodeIds fk fmt scl net c).2.cache = c.cache ∨
       (fetchImages truthy cfg now env nodeIds fk fmt scl net c).2.cache
         = mapDelete (imagesCacheKey fileKey nodeIds (resolveFormat fmt)
             (resolveScale scl)) c.cache) ∧
      (∀ e', mapGet (imagesCacheKey fileKey nodeIds (resolveFormat fmt)
            (resolveScale scl))
          (fetchImages truthy cfg now env nodeIds fk fmt scl net c).2.cache
            = some e' →
        truthy e'.data = false) := by
  cases hemp : nodeIds.isEmpty with
  | true =>
    have hF : fetchImages truthy cfg now env nodeIds fk fmt scl net c
        = (Except.error FetchErr.emptyNodeIds, c) := by
      simp [fetchImages, hemp]
    rw [hF] at hres
    injection hres with h1
    exact absurd h1.symm hnotempty
  | false =>
    cases hkr : resolveFileKey (ε := ε) env fk with
    | error x =>
      have hF : fetchImages truthy cfg now env nodeIds fk fmt scl net c
          = (Except.error x, c) := by
        simp only [fetchImages, hemp, Bool.false_eq_true, if_false, hkr]
      rw [hF] at hres
      injection hres with h1
      exact absurd (h1 ▸ resolveFileKey_error env fk x hkr) hnotkey
    | ok fileKey =>
      refine ⟨fileKey, rfl, rfl, ?_⟩
      cases hm : mapGet (imagesCacheKey fileKey nodeIds (resolveFormat fmt)
          (resolveScale scl)) c.cache with
      | none =>
        cases hnet : net fileKey (joinComma nodeIds) (resolveFormat fmt)
            (resolveScale scl) with
        | error e2 =>
          have hF : fetchImages truthy cfg now env nodeIds fk fmt scl net c
              = (Except.error (FetchErr.api e2),
                 { c with misses := c.misses + 1 }) := by
            simp only [fetchImages, hemp, Bool.false_eq_true, if_false, hkr,
              FigmaCache.get, hm, hnet]
          rw [hF]
          refine ⟨Or.inl rfl, ?_⟩
          intro e' h'
          have h2 : mapGet (imagesCacheKey fileKey nodeIds (resolveFormat fmt)
              (resolveScale scl)) c.cache = some e' := h'
          rw [hm] at h2
          exact Option.noConfusion h2
        | ok resp =>
          cases himg : resp.images with
          | none =>
            have hF : fetchImages truthy cfg now env nodeIds fk fmt scl net c
                = (Except.error FetchErr.noImages,
                   { c with misses := c.misses + 1 }) := by
              simp only [fetchImages, hemp, Bool.false_eq_true, if_false, hkr,
                FigmaCache.get, hm, hnet, himg]
            rw [hF]
            refine ⟨Or.inl rfl, ?_⟩
            intro e' h'
            have h2 : mapGet (imagesCacheKey fileKey nodeIds (resolveFormat fmt)
                (resolveScale scl)) c.cache = some e' := h'
            rw [hm] at h2
            exact Option.noConfusion h2
          | some imgs =>
            have hF : (fetchImages truthy cfg now env nodeIds fk fmt scl net c).1
                = Except.ok imgs := by
              simp only [fetchImages, hemp, Bool.false_eq_true, if_false, hkr,
                FigmaCache.get, hm, hnet, himg]
            rw [hF] at hres
            exact Except.noConfusion hres
      | some entry =>
        by_cases hage : (now : Int) - (entry.timestamp : Int) > (cfg.ttlMs : Int)
        · cases hnet : net fileKey (joinComma nodeIds) (resolveFormat fmt)
              (resolveScale scl) with
          | error e2 =>
            have hF : fetchImages truthy cfg now env nodeIds fk fmt scl net c
                = (Except.error (FetchErr.api e2),
                   ⟨mapDelete (imagesCacheKey fileKey nodeIds (resolveFormat fmt)
                       (resolveScale scl)) c.cache, c.hits, c.misses + 1⟩) := by
              simp only [fetchImages, hemp, Bool.false_eq_true, if_false, hkr,
                FigmaCache.get, hm, if_pos hage, hnet]
            rw [hF]
            refine ⟨Or.inr rfl, ?_⟩
            intro e' h'
            have h2 : mapGet (imagesCacheKey fileKey nodeIds (resolveFormat fmt)
                  (resolveScale scl))
                (mapDelete (imagesCacheKey fileKey nodeIds (resolveFormat fmt)
                  (resolveScale scl)) c.cache) = some e' := h'
            rw [mapGet_mapDelete] at h2
            simp at h2
          | ok resp =>
            cases himg : resp.images with
            | none =>
              have hF : fetchImages truthy cfg now env nodeIds fk fmt scl net c
                  = (Except.error FetchErr.noImages,
                     ⟨mapDelete (imagesCacheKey fileKey nodeIds (resolveFormat fmt)
                         (resolveScale scl)) c.cache, c.hits, c.misses + 1⟩) := by
                simp only [fetchImages, hemp, Bool.false_eq_true, if_false, hkr,
                  FigmaCache.get, hm, if_pos hage, hnet, himg]
              rw [hF]
              refine ⟨Or.inr rfl, ?_⟩
              intro e' h'
              have h2 : mapGet (imagesCacheKey fileKey nodeIds (resolveFormat fmt)
                    (resolveScale scl))
                  (mapDelete (imagesCacheKey fileKey nodeIds (resolveFormat fmt)
                    (resolveScale scl)) c.cache) = some e' := h'
              rw [mapGet_mapDelete] at h2
              simp at h2
            | some imgs =>
              have hF : (fetchImages truthy cfg now env nodeIds fk fmt scl net c).1
                  = Except.ok imgs := by
                simp only [fetchImages, hemp, Bool.false_eq_true, if_false, hkr,
                  FigmaCache.get, hm, if_pos hage, hnet, himg]
              rw [hF] at hres
              exact Except.noConfusion hres
        · by_cases ht : truthy entry.data = true
          · have hF : (fetchImages truthy cfg now env nodeIds fk fmt scl net c).1
                = Except.ok entry.data := by
              simp [fetchImages, hemp, hkr, FigmaCache.get, hm, if_neg hage, ht]
            rw [hF] at hres
            exact Except.noConfusion hres
          · rw [Bool.not_eq_true] at ht
            cases hnet : net fileKey (joinComma nodeIds) (resolveFormat fmt)
                (resolveScale scl) with
            | error e2 =>
              have hF : fetchImages truthy cfg now env nodeIds fk fmt scl net c
                  = (Except.error (FetchErr.api e2),
                     { c with hits := c.hits + 1 }) := by
                simp [fetchImages, hemp, hkr, FigmaCache.get, hm, if_neg hage, ht,
                  hnet]
              rw [hF]
              refine ⟨Or.inl rfl, ?_⟩
              intro e' h'
              have h2 : mapGet (imagesCacheKey fileKey nodeIds (resolveFormat fmt)
                  (resolveScale scl)) c.cache = some e' := h'
              rw [hm] at h2
              injection h2 with h3
              rw [← h3]
              exact ht
            | ok resp =>
              cases himg : resp.images with
              | none =>
                have hF : fetchImages truthy cfg now env nodeIds fk fmt scl net c
                    = (Except.error FetchErr.noImages,
                       { c with hits := c.hits + 1 }) := by
                  simp [fetchImages, hemp, hkr, FigmaCache.get, hm, if_neg hage,
                    ht, hnet, himg]
                rw [hF]
                refine ⟨Or.inl rfl, ?_⟩
                intro e' h'
                have h2 : mapGet (imagesCacheKey fileKey nodeIds (resolveFormat fmt)
                    (resolveScale scl)) c.cache = some e' := h'
                rw [hm] at h2
                injection h2 with h3
                rw [← h3]
                exact ht
              | some imgs =>
                have hF : (fetchImages truthy cfg now env nodeIds fk fmt scl
                    net c).1 = Except.ok imgs := by
                  simp [fetchImages, hemp, hkr, FigmaCache.get, hm, if_neg hage,
                    ht, hnet, himg]
                rw [hF] at hres
                exact Except.noConfusion hres

/-- C4 witness: concrete instance of the generic eviction step. -/
theorem C4_witness :
    (FigmaCache.set ⟨1, 1000⟩ 5 "b" (7 : Nat)
        ⟨[("a", ⟨0, 0⟩)], 0, 0⟩).cache = [] ++ [("b", ⟨7, 5⟩)] :=
  C4_eviction_order.1 ⟨1, 1000⟩ 5 "b" 7 ⟨[("a", ⟨0, 0⟩)], 0, 0⟩ ("a", ⟨0, 0⟩) []
    (by decide) (by decide) rfl (by decide) (by decide)

/-- C8 — Failed network calls are never cached: when `fetchFile` propagates a
network error, or `fetchImages` propagates a network error or a response with
no images, the cache gains no new or updated entry (every entry of the
resulting mapping was already present, unchanged), and a subsequent identical
call with a succeeding network re-attempts the network operation and returns
its result instead of replaying the failure. -/
theorem C8_no_cache_on_failure :
    (∀ (V ε : Type) (truthy : V → Bool) (cfg : Config) (now : Nat)
        (env fk : Option String) (net : String → Except ε V) (c : FigmaCache V)
        (e : ε),
      (fetchFile truthy cfg now env fk net c).1 = Except.error (FetchErr.api e) →
      (∀ k v, mapGet k (fetchFile truthy cfg now env fk net c).2.cache = some v →
        mapGet k c.cache = some v) ∧
      (∀ (now2 : Nat) (r : V),
        (fetchFile truthy cfg now2 env fk (fun s => (Except.ok r : Except ε V))
          (fetchFile truthy cfg now env fk net c).2).1 = Except.ok r)) ∧
    (∀ (V ε : Type) (truthy : V → Bool) (cfg : Config) (now : Nat)
        (env : Option String) (nodeIds : List String) (fk fmt : Option String)
        (scl : Option Nat)
        (net : String → String → String → Nat → Except ε (ImagesResponse V))
        (c : FigmaCache V) (err : FetchErr ε),
      (fetchImages truthy cfg now env nodeIds fk fmt scl net c).1
        = Except.error err →
      ((∃ e, err = FetchErr.api e) ∨ err = FetchErr.noImages) →
      (∀ k v, mapGet k (fetchImages truthy cfg now env nodeIds fk fmt scl
          net c).2.cache = some v → mapGet k c.cache = some v) ∧
      (∀ (now2 : Nat) (r : V),
        (fetchImages truthy cfg now2 env nodeIds fk fmt scl
          (fun a b d s => (Except.ok ⟨some r⟩ : Except ε (ImagesResponse V)))
          (fetchImages truthy cfg now env nodeIds fk fmt scl net c).2).1
          = Except.ok r)) := by
  constructor
  · intro V ε truthy cfg now env fk net c e hres
    obtain ⟨key, hkr, hcache, hfalsy⟩ :=
      fetchFile_error_cases truthy cfg now env fk net c (FetchErr.api e) hres
        (fun hcon => FetchErr.noConfusion hcon)
    constructor
    · intro k v hv
      rcases hcache with h | h
      · rw [h] at hv
        exact hv
      · rw [h, mapGet_mapDelete] at hv
        split at hv
        · exact Option.noConfusion hv
        · exact hv
    · intro now2 r
      exact fetchFile_proceeds truthy cfg now2 env fk key r _ hkr hfalsy
  · intro V ε truthy cfg now env nodeIds fk fmt scl net c err hres herr
    have h1 : err ≠ FetchErr.noFileKey := by
      rcases herr with ⟨e, he⟩ | he <;> rw [he] <;>
        exact fun hcon => FetchErr.noConfusion hcon
    have h2 : err ≠ FetchErr.emptyNodeIds := by
      rcases herr with ⟨e, he⟩ | he <;> rw [he] <;>
        exact fun hcon => FetchErr.noConfusion hcon
    obtain ⟨fileKey, hkr, hemp, hcache, hfalsy⟩ :=
      fetchImages_error_cases truthy cfg now env nodeIds fk fmt scl net c err
        hres h1 h2
    constructor
    · intro k v hv
      rcases hcache with h | h
      · rw [h] at hv
        exact hv
      · rw [h, mapGet_mapDelete] at hv
        split at hv
        · exact Option.noConfusion hv
        · exact hv
    · intro now2 r
      exact fetchImages_proceeds truthy cfg now2 env nodeIds fk fmt scl fileKey r _
        hkr hemp hfalsy

/-- C8 witness: after a failing network call, an identical retry with a
succeeding network returns the network result. -/
theorem C8_witness :
    (fetchFile (fun _ : Nat => true) refConfig 3 (some "F") none
        (fun s => (Except.ok 7 : Except Unit Nat))
        (fetchFile (fun _ : Nat => true) refConfig 0 (some "F") none
          (fun s => Except.error ()) FigmaCache.empty).2).1 = Except.ok 7 :=
  (C8_no_cache_on_failure.1 Nat Unit (fun _ => true) refConfig 0 (some "F") none
    (fun s => Except.error ()) FigmaCache.empty () (by rfl)).2 3 7

/-- C9 — Absence conflated with a stored null: the JS-visible return of
`cache.get` (the stored data for a fresh hit, null otherwise, modelled by
flattening with `Option.join`) is null both for an absent key (a miss) and for
a fresh entry whose stored value is null (still counted as a hit); and the
fetch operations treat any cached falsy value as a miss, re-issuing the
network call. -/
theorem C9_null_conflation :
    (∀ (τ : Type) (cfg : Config) (now : Nat) (key : String)
        (c : FigmaCache (Option τ)) (ts : Nat),
      mapGet key c.cache = some ⟨none, ts⟩ →
      ¬ (now : Int) - (ts : Int) > (cfg.ttlMs : Int) →
      ((FigmaCache.get cfg now key c).1 = some none ∧
        (FigmaCache.get cfg now key c).1.join = none ∧
        (FigmaCache.get cfg now key c).2.hits = c.hits + 1)) ∧
    (∀ (τ : Type) (cfg : Config) (now : Nat) (key : String)
        (c : FigmaCache (Option τ)),
      mapGet key c.cache = none →
      ((FigmaCache.get cfg now key c).1 = none ∧
        (FigmaCache.get cfg now key c).1.join = none ∧
        (FigmaCache.get cfg now key c).2.misses = c.misses + 1)) ∧
    (∀ (V ε : Type) (truthy : V → Bool) (cfg : Config) (now : Nat)
        (env fk : Option String) (key : String) (r : V) (c : FigmaCache V),
      resolveFileKey (ε := ε) env fk = Except.ok key →
      (∀ e, mapGet (fileCacheKey key) c.cache = some e → truthy e.data = false) →
      (fetchFile truthy cfg now env fk (fun s => (Except.ok r : Except ε V)) c).1
        = Except.ok r) ∧
    (∀ (V ε : Type) (truthy : V → Bool) (cfg : Config) (now : Nat)
        (env : Option String) (nodeIds : List String) (fk fmt : Option String)
        (scl : Option Nat) (fileKey : String) (r : V) (c : FigmaCache V),
      resolveFileKey (ε := ε) env fk = Except.ok fileKey →
      nodeIds.isEmpty = false →
      (∀ e, mapGet (imagesCacheKey fileKey nodeIds (resolveFormat fmt)
          (resolveScale scl)) c.cache = some e → truthy e.data = false) →
      (fetchImages truthy cfg now env nodeIds fk fmt scl
        (fun a b d s => (Except.ok ⟨some r⟩ : Except ε (ImagesResponse V))) c).1
        = Except.ok r) := by
  refine ⟨?_, ?_, ?_, ?_⟩
  · intro τ cfg now key c ts hm hage
    simp [FigmaCache.get, hm, if_neg hage]
  · intro τ cfg now key c hm
    simp [FigmaCache.get, hm]
  · intro V ε truthy cfg now env fk key r c hkr hfalsy
    exact fetchFile_proceeds truthy cfg now env fk key r c hkr hfalsy
  · intro V ε truthy cfg now env nodeIds fk fmt scl fileKey r c hkr hemp hfalsy
    exact fetchImages_proceeds truthy cfg now env nodeIds fk fmt scl fileKey r c
      hkr hemp hfalsy

/-- C9 witness: a fresh stored null is returned as null yet counted as a hit,
indistinguishable from a miss by the return value alone. -/
theorem C9_witness :
    ((FigmaCache.get refConfig 10 "k"
        (⟨[("k", ⟨(none : Option Nat), 0⟩)], 0, 0⟩ : FigmaCache (Option Nat))).1
      = some none) ∧
    ((FigmaCache.get refConfig 10 "k"
        (⟨[("k", ⟨(none : Option Nat), 0⟩)], 0, 0⟩ : FigmaCache (Option Nat))).2.hits
      = 1) := by
  have h := C9_null_conflation.1 Nat refConfig 10 "k"
    ⟨[("k", ⟨(none : Option Nat), 0⟩)], 0, 0⟩ 0 (by decide) (by decide)
  exact ⟨h.1, h.2.2⟩

/-- C10 — Falsy options are coerced to defaults: `fetchImages` with
`scale = 0` (or absent scale) behaves identically to `scale = 1`; an empty (or
absent) `format` behaves identically to `"png"`; an empty `fileKey` behaves
identically to an absent one (both defer to the environment default). The
whole behaviour coincides: same cache key, same upstream request parameters,
same result, same final cache. -/
theorem C10_falsy_option_defaults (V ε : Type) (truthy : V → Bool) (cfg : Config)
    (now : Nat) (env : Option String) (nodeIds : List String)
    (fk fmt : Option String) (scl : Option Nat)
    (net : String → String → String → Nat → Except ε (ImagesResponse V))
    (c : FigmaCache V) (hne : nodeIds ≠ []) :
    (fetchImages truthy cfg now env nodeIds fk fmt (some 0) net c
      = fetchImages truthy cfg now env nodeIds fk fmt (some 1) net c) ∧
    (fetchImages truthy cfg now env nodeIds fk fmt none net c
      = fetchImages truthy cfg now env nodeIds fk fmt (some 1) net c) ∧
    (fetchImages truthy cfg now env nodeIds fk (some "") scl net c
      = fetchImages truthy cfg now env nodeIds fk (some "png") scl net c) ∧
    (fetchImages truthy cfg now env nodeIds fk none scl net c
      = fetchImages truthy cfg now env nodeIds fk (some "png") scl net c) ∧
    (fetchImages truthy cfg now env nodeIds (some "") fmt scl net c
      = fetchImages truthy cfg now env nodeIds none fmt scl net c) :=
  ⟨rfl, rfl, rfl, rfl, rfl⟩

/-- C10 witness: concrete instance of the falsy-coercion equivalences. -/
theorem C10_witness :
    fetchImages (fun _ : Nat => true) refConfig 0 (some "F") ["n1"] none none
        (some 0) (fun a b d s => (Except.ok ⟨some 3⟩ : Except Unit (ImagesResponse Nat)))
        FigmaCache.empty
      = fetchImages (fun _ : Nat => true) refConfig 0 (some "F") ["n1"] none none
        (some 1) (fun a b d s => (Except.ok ⟨some 3⟩ : Except Unit (ImagesResponse Nat)))
        FigmaCache.empty :=
  (C10_falsy_option_defaults Nat Unit (fun _ => true) refConfig 0 (some "F")
    ["n1"] none none (some 0)
    (fun a b d s => Except.ok ⟨some 3⟩) FigmaCache.empty (by decide)).1

/-- C5 counterexample: two different `fetchImages` requests — node IDs
`["a,b"]` versus `["a", "b"]`, which change the expected result — produce the
SAME cache key, because `nodeIds.join(",")` is ambiguous when a node ID
contains the delimiter. -/
theorem C5_counterexample :
    imagesCacheKey "f" ["a,b"] "png" 1 = imagesCacheKey "f" ["a", "b"] "png" 1 ∧
      (["a,b"] : List String) ≠ ["a", "b"] := by
  constructor
  · decide
  · decide

/-- C5 (amended) — Cache-key contract under delimiter-free parameters:
`fetchFile` keys are injective in the file key; `fetchImages` keys determine
(and are determined by) the full parameter tuple provided the file key and the
node IDs contain no ':' and no ',' (the format strings, `"png" | "svg" | "jpg"`
in the source, are colon-free). Without the delimiter-freeness restriction the
contract fails (see the counterexample). -/
theorem C5_cache_key_contract :
    (∀ k1 k2 : String, fileCacheKey k1 = fileCacheKey k2 ↔ k1 = k2) ∧
    (∀ (f1 f2 : String) (n1 n2 : List String) (fo1 fo2 : String) (s1 s2 : Nat),
      ':' ∉ f1.data → ':' ∉ f2.data → n1 ≠ [] → n2 ≠ [] →
      (∀ s ∈ n1, ':' ∉ s.data ∧ ',' ∉ s.data) →
      (∀ s ∈ n2, ':' ∉ s.data ∧ ',' ∉ s.data) →
      ':' ∉ fo1.data → ':' ∉ fo2.data →
      (imagesCacheKey f1 n1 fo1 s1 = imagesCacheKey f2 n2 fo2 s2 ↔
        (f1 = f2 ∧ n1 = n2 ∧ fo1 = fo2 ∧ s1 = s2))) := by
  constructor
  · intro k1 k2
    constructor
    · intro h
      have hdata := congrArg String.data h
      simp only [fileCacheKey, String.data_append] at hdata
      exact String.ext (List.append_cancel_left hdata)
    · intro h
      rw [h]
  · intro f1 f2 n1 n2 fo1 fo2 s1 s2 hf1 hf2 hne1 hne2 hn1 hn2 hfo1 hfo2
    constructor
    · intro h
      have hdata := congrArg String.data h
      rw [imagesCacheKey_data, imagesCacheKey_data] at hdata
      have hrest := List.append_cancel_left hdata
      obtain ⟨hf, hrest2⟩ := sepSplit ':' f1.data f2.data _ _ hf1 hf2 hrest
      have hjc1 : ':' ∉ (joinComma n1).data :=
        not_mem_joinComma ':' (by decide) n1 (fun s hs => (hn1 s hs).1)
      have hjc2 : ':' ∉ (joinComma n2).data :=
        not_mem_joinComma ':' (by decide) n2 (fun s hs => (hn2 s hs).1)
      obtain ⟨hj, hrest3⟩ := sepSplit ':' _ _ _ _ hjc1 hjc2 hrest2
      obtain ⟨hfo, hnr⟩ := sepSplit ':' fo1.data fo2.data _ _ hfo1 hfo2 hrest3
      refine ⟨String.ext hf, ?_, String.ext hfo, ?_⟩
      · exact joinComma_injective n1 n2 hne1 hne2
          (fun s hs => (hn1 s hs).2) (fun s hs => (hn2 s hs).2) (String.ext hj)
      · exact natRepr_injective s1 s2 (String.ext hnr)
    · rintro ⟨rfl, rfl, rfl, rfl⟩
      rfl

/-- C5 witness: concrete instance of the amended key contract — requests
differing only in scale have different keys. -/
theorem C5_witness :
    (imagesCacheKey "f" ["a"] "png" 1 = imagesCacheKey "f" ["a"] "png" 2)
      ↔ ("f" = "f" ∧ (["a"] : List String) = ["a"] ∧ "png" = "png" ∧ 1 = 2) :=
  C5_cache_key_contract.2 "f" "f" ["a"] ["a"] "png" "png" 1 2 (by decide)
    (by decide) (by decide) (by decide) (by decide) (by decide) (by decide)
    (by decide)

